import Mathlib

/-!
# Verification of the market-cap-fetcher batch tool

Shallow embedding of the repository's two core files:

* `src/components/MarketCapForm.tsx` — the client-side batch orchestration
  loop (`processData`), its pause/stop controls and the CSV pivot builder
  (`createPivotData`);
* `src/app/api/market-cap/route.ts` — the API route that resolves a
  (ticker, date) pair to a market-cap record
  (`getSplitAdjustedPriceWithFallback`, `generateFallbackDates`,
  `tryFetchPriceForDate`, `getSharesOutstanding`,
  `getDefaultSharesOutstanding`, and the `POST` computation).

Modelling conventions:

* JS numbers are modelled as exact rationals (`ℚ`);
* calendar dates on the API side are modelled as absolute day indices
  (`Nat`): the JS `Date`-arithmetic `setDate(getDate() + i)` adds `i`
  calendar days, which is `+ i` on day indices;
* the upstream HTTP provider is an oracle function passed in explicitly;
  the embedding additionally records the trace of provider calls made, so
  that claims about which requests are issued can be stated;
* JS truthiness of a possibly-absent number is modelled on `Option ℚ`:
  `none` (undefined) and `some 0` are falsy, everything else truthy.
-/

namespace MarketCapFetcher

/-! ### JS character primitives (ASCII fragment used by ticker input)

`String.prototype.toUpperCase` restricted to ASCII, as a lookup in the
26-entry lower→upper table, and the ASCII part of the `\s` regex class. -/

def lowerUpperPairs : List (Char × Char) :=
  [('a', 'A'), ('b', 'B'), ('c', 'C'), ('d', 'D'), ('e', 'E'), ('f', 'F'),
   ('g', 'G'), ('h', 'H'), ('i', 'I'), ('j', 'J'), ('k', 'K'), ('l', 'L'),
   ('m', 'M'), ('n', 'N'), ('o', 'O'), ('p', 'P'), ('q', 'Q'), ('r', 'R'),
   ('s', 'S'), ('t', 'T'), ('u', 'U'), ('v', 'V'), ('w', 'W'), ('x', 'X'),
   ('y', 'Y'), ('z', 'Z')]

def jsToUpper (c : Char) : Char :=
  match lowerUpperPairs.find? (fun p => p.1 = c) with
  | some p => p.2
  | none => c

/-- ASCII portion of the JS regex class `\s` (space, tab, LF, VT, FF, CR). -/
def jsIsSpace (c : Char) : Bool :=
  c = ' ' || c = '\t' || c = '\n' || c = '\x0b' || c = '\x0c' || c = '\r'

theorem lowerUpperPairs_no_space :
    ∀ p ∈ lowerUpperPairs, jsIsSpace p.1 = false ∧ jsIsSpace p.2 = false := by
  decide

theorem lowerUpperPairs_upper_not_key :
    ∀ p ∈ lowerUpperPairs, lowerUpperPairs.find? (fun q => q.1 = p.2) = none := by
  decide

theorem jsIsSpace_jsToUpper (c : Char) : jsIsSpace (jsToUpper c) = jsIsSpace c := by
  unfold jsToUpper
  cases h : lowerUpperPairs.find? (fun p => p.1 = c) with
  | none => rfl
  | some p =>
    have hmem : p ∈ lowerUpperPairs := List.mem_of_find?_eq_some h
    have hc : p.1 = c := by
      have := List.find?_some h
      simpa using this
    have h1 := (lowerUpperPairs_no_space p hmem).1
    have h2 := (lowerUpperPairs_no_space p hmem).2
    rw [h2, ← hc, h1]

theorem jsToUpper_idem (c : Char) : jsToUpper (jsToUpper c) = jsToUpper c := by
  unfold jsToUpper
  cases h : lowerUpperPairs.find? (fun p => p.1 = c) with
  | none => simp [h]
  | some p =>
    have hmem : p ∈ lowerUpperPairs := List.mem_of_find?_eq_some h
    simp [lowerUpperPairs_upper_not_key p hmem]

/-! ### Ticker input parsing (`MarketCapForm.tsx`, `processData` lines 143–148)

`tickers.trim().split(/\s+/).map(t => t.toUpperCase())`: the accumulator
`cur` holds the current token reversed.  For an input containing at least
one non-space character (the only case reachable past the `!tickers.trim()`
guard) this coincides with JS `trim` + `split(/\s+/)`. -/

def splitWsAux : List Char → List Char → List (List Char)
  | cur, [] => if cur = [] then [] else [cur.reverse]
  | cur, c :: cs =>
    if jsIsSpace c then
      if cur = [] then splitWsAux [] cs
      else cur.reverse :: splitWsAux [] cs
    else splitWsAux (c :: cur) cs

def parseTickers (s : String) : List String :=
  (splitWsAux [] s.data).map (fun w => String.mk (w.map jsToUpper))

/-- A string all of whose characters are fixed by `jsToUpper` (uppercase form). -/
def isAllUpper (s : String) : Bool :=
  s.data.all (fun c => jsToUpper c = c)

theorem splitWsAux_map_upper :
    ∀ (l cur : List Char),
      splitWsAux (cur.map jsToUpper) (l.map jsToUpper) =
        (splitWsAux cur l).map (List.map jsToUpper) := by
  intro l
  induction l with
  | nil =>
    intro cur
    by_cases hc : cur = []
    · subst hc; rfl
    · have hmapne : cur.map jsToUpper ≠ [] := by simp [hc]
      simp [splitWsAux, hc, hmapne]
  | cons c cs ih =>
    intro cur
    by_cases hs : jsIsSpace c
    · by_cases hc : cur = []
      · subst hc
        simpa [splitWsAux, jsIsSpace_jsToUpper, hs] using ih []
      · have hmapne : cur.map jsToUpper ≠ [] := by simp [hc]
        simpa [splitWsAux, jsIsSpace_jsToUpper, hs, hc, hmapne] using ih []
    · have := ih (c :: cur)
      simpa [splitWsAux, jsIsSpace_jsToUpper, hs] using this

theorem parseTickers_tokens_upper (s : String) :
    ∀ t ∈ parseTickers s, isAllUpper t = true := by
  intro t ht
  unfold parseTickers at ht
  rcases List.mem_map.mp ht with ⟨w, _, rfl⟩
  unfold isAllUpper
  refine List.all_eq_true.mpr ?_
  intro c hc
  rcases List.mem_map.mp hc with ⟨d, _, rfl⟩
  exact decide_eq_true (jsToUpper_idem d)

theorem parseTickers_case_insensitive (s₁ s₂ : String)
    (h : s₁.data.map jsToUpper = s₂.data.map jsToUpper) :
    parseTickers s₁ = parseTickers s₂ := by
  unfold parseTickers
  have e₁ := splitWsAux_map_upper s₁.data []
  have e₂ := splitWsAux_map_upper s₂.data []
  simp only [List.map_nil] at e₁ e₂
  have : (splitWsAux [] s₁.data).map (List.map jsToUpper) =
      (splitWsAux [] s₂.data).map (List.map jsToUpper) := by
    rw [← e₁, ← e₂, h]
  calc (splitWsAux [] s₁.data).map (fun w => String.mk (w.map jsToUpper))
      = ((splitWsAux [] s₁.data).map (List.map jsToUpper)).map String.mk := by
        simp [List.map_map, Function.comp]
    _ = ((splitWsAux [] s₂.data).map (List.map jsToUpper)).map String.mk := by rw [this]
    _ = (splitWsAux [] s₂.data).map (fun w => String.mk (w.map jsToUpper)) := by
        simp [List.map_map, Function.comp]

/-! ### API route model (`src/app/api/market-cap/route.ts`)

Dates are absolute day indices (`Nat`).  The provider is an oracle
`Nat → EodResponse` giving, per queried day, either a transport failure
(non-2xx, which `tryFetchPriceForDate` turns into a thrown error) or a
JSON payload (a list of rows; `[]` models both `[]` and a null body). -/

/-- One row of the EODHD end-of-day payload.  `adjusted_close` is `Option`
because the route checks JS truthiness of `dayData.adjusted_close`
(absent / `0` are both falsy). -/
structure RawDay where
  date : Nat
  openPrice : ℚ
  high : ℚ
  low : ℚ
  close : ℚ
  adjusted_close : Option ℚ
  volume : ℚ
deriving Repr, DecidableEq

inductive EodResponse where
  | httpError (status : Nat) (statusText : String)
  | json (rows : List RawDay)
deriving Repr, DecidableEq

/-- Validated record returned by `tryFetchPriceForDate`. -/
structure EODHDPriceData where
  date : Nat
  openPrice : ℚ
  high : ℚ
  low : ℚ
  close : ℚ
  adjusted_close : ℚ
  volume : ℚ
deriving Repr, DecidableEq

/-- Model of `tryFetchPriceForDate` (route.ts lines 536–567): non-2xx throws
(`Except.error`); empty payload or falsy `adjusted_close` yields `none`. -/
def tryFetchPriceForDate (resp : EodResponse) : Except String (Option EODHDPriceData) :=
  match resp with
  | .httpError status statusText =>
    .error ("EODHD API error: " ++ toString status ++ " " ++ statusText)
  | .json [] => .ok none
  | .json (dayData :: _) =>
    match dayData.adjusted_close with
    | none => .ok none
    | some a =>
      if a = 0 then .ok none
      else .ok (some { date := dayData.date, openPrice := dayData.openPrice,
                       high := dayData.high, low := dayData.low,
                       close := dayData.close, adjusted_close := a,
                       volume := dayData.volume })

/-- Model of `generateFallbackDates` (route.ts lines 521–533): the next 5 consecutive
calendar days after the requested date. -/
def generateFallbackDates (dateIdx : Nat) : List Nat :=
  (List.range 5).map (fun i => dateIdx + i + 1)

/-- The fallback loop of `getSplitAdjustedPriceWithFallback`: try each date
in order, return the first validated record; a thrown error on one date is
caught (`continue`).  Also returns the trace of dates attempted. -/
def tryDates (provider : Nat → EodResponse) : List Nat → Option EODHDPriceData × List Nat
  | [] => (none, [])
  | d :: rest =>
    match tryFetchPriceForDate (provider d) with
    | .ok (some r) => (some r, [d])
    | _ =>
      let next := tryDates provider rest
      (next.1, d :: next.2)

/-- Model of `getSplitAdjustedPriceWithFallback` (route.ts lines 487–518): exact date
first (errors caught and treated as no data), then the 5 fallback dates in
order.  Second component: the trace of dates on which the provider was
called. -/
def getSplitAdjustedPriceWithFallback (provider : Nat → EodResponse) (requestedDate : Nat) :
    Option EODHDPriceData × List Nat :=
  match tryFetchPriceForDate (provider requestedDate) with
  | .ok (some exactData) => (some exactData, [requestedDate])
  | _ =>
    let rest := tryDates provider (generateFallbackDates requestedDate)
    (rest.1, requestedDate :: rest.2)

/-! ### Shares resolution (`route.ts` lines 570–598 and 601–693) -/

/-- The fields of the fundamentals JSON probed by `getSharesOutstanding`,
in probe order; `none` models an absent field. -/
structure FundamentalsData where
  sharesStatsSharesOutstanding : Option ℚ
  highlightsSharesOutstanding : Option ℚ
  generalSharesOutstanding : Option ℚ
  shareStatsSharesOutstanding : Option ℚ
  outstandingShares : Option ℚ
deriving Repr, DecidableEq

/-- Outcome of the fundamentals fetch: non-2xx response, a thrown network
error (both yield `null` in the source), or a JSON body. -/
inductive FundamentalsResponse where
  | httpError (status : Nat)
  | thrown
  | json (d : FundamentalsData)
deriving Repr, DecidableEq

/-- JS `x || y` on possibly-absent numbers: keeps `x` when truthy
(present and nonzero), otherwise evaluates to `y`. -/
def jsOr (x y : Option ℚ) : Option ℚ :=
  match x with
  | some v => if v ≠ 0 then some v else y
  | none => y

/-- Model of `getSharesOutstanding` (route.ts lines 570–598): probe the field
aliases with `||`, accept the chain value only if truthy and `> 0`;
any failure yields `none` (`null`). -/
def getSharesOutstanding (resp : FundamentalsResponse) : Option ℚ :=
  match resp with
  | .httpError _ => none
  | .thrown => none
  | .json d =>
    let sharesOutstanding :=
      jsOr d.sharesStatsSharesOutstanding
        (jsOr d.highlightsSharesOutstanding
          (jsOr d.generalSharesOutstanding
            (jsOr d.shareStatsSharesOutstanding d.outstandingShares)))
    match sharesOutstanding with
    | some v => if v ≠ 0 ∧ 0 < v then some v else none
    | none => none

/-- The static default table of `getDefaultSharesOutstanding`
(route.ts lines 602–690), keyed by the formatted (`.US`-suffixed) ticker. -/
def defaultSharesTable : List (String × ℚ) :=
  [("AAPL.US", 15400000000), ("MSFT.US", 7400000000), ("GOOGL.US", 1240000000),
   ("GOOG.US", 1240000000), ("AMZN.US", 10700000000), ("META.US", 2700000000),
   ("TSLA.US", 3200000000), ("NFLX.US", 440000000), ("NVDA.US", 2500000000),
   ("CRM.US", 1000000000), ("ORCL.US", 2700000000), ("ADBE.US", 460000000),
   ("NOW.US", 200000000), ("INTU.US", 280000000), ("CSCO.US", 4200000000),
   ("IBM.US", 920000000), ("SHOP.US", 1300000000), ("V.US", 2100000000),
   ("MA.US", 970000000), ("JPM.US", 2900000000), ("BAC.US", 8200000000),
   ("WFC.US", 3700000000), ("GS.US", 340000000), ("MS.US", 1600000000),
   ("AXP.US", 740000000), ("PYPL.US", 1100000000), ("SQ.US", 610000000),
   ("UNH.US", 930000000), ("JNJ.US", 2600000000), ("PFE.US", 5600000000),
   ("ABT.US", 1800000000), ("TMO.US", 390000000), ("DHR.US", 720000000),
   ("BMY.US", 2100000000), ("ABBV.US", 1800000000), ("MRK.US", 2500000000),
   ("LLY.US", 950000000), ("GILD.US", 1300000000), ("AMGN.US", 540000000),
   ("REGN.US", 110000000), ("VRTX.US", 260000000), ("BIIB.US", 150000000),
   ("ISRG.US", 360000000), ("WMT.US", 2700000000), ("HD.US", 1000000000),
   ("COST.US", 440000000), ("TGT.US", 460000000), ("LOW.US", 690000000),
   ("NKE.US", 1500000000), ("SBUX.US", 1100000000), ("MCD.US", 740000000),
   ("DIS.US", 1800000000), ("PG.US", 2400000000), ("KO.US", 4300000000),
   ("PEP.US", 1400000000), ("CL.US", 840000000), ("KMB.US", 340000000),
   ("GIS.US", 600000000), ("K.US", 340000000), ("XOM.US", 4200000000),
   ("CVX.US", 1900000000), ("COP.US", 1300000000), ("EOG.US", 580000000),
   ("SLB.US", 1400000000), ("TSM.US", 5200000000), ("AVGO.US", 460000000),
   ("TXN.US", 900000000), ("QCOM.US", 1100000000), ("AMD.US", 1600000000),
   ("INTC.US", 4100000000), ("MU.US", 1100000000), ("MRVL.US", 850000000),
   ("AMAT.US", 900000000), ("LRCX.US", 140000000), ("KLA.US", 140000000),
   ("SNPS.US", 150000000), ("CDNS.US", 140000000), ("HON.US", 680000000),
   ("UPS.US", 870000000), ("CAT.US", 510000000), ("DE.US", 300000000),
   ("GE.US", 1100000000), ("MMM.US", 570000000), ("LMT.US", 270000000),
   ("RTX.US", 1500000000), ("BA.US", 590000000), ("NOC.US", 160000000)]

/-- Model of `getDefaultSharesOutstanding` (route.ts lines 601–693):
`defaultShares[ticker] || 1000000000`. -/
def getDefaultSharesOutstanding (ticker : String) : ℚ :=
  match defaultSharesTable.find? (fun p => p.1 == ticker) with
  | some p => if p.2 ≠ 0 then p.2 else 1000000000
  | none => 1000000000

/-- The shares value used by `POST` (route.ts lines 443–446):
`let s = await getSharesOutstanding(...); if (!s) s = getDefaultSharesOutstanding(...)`. -/
def resolveShares (resp : FundamentalsResponse) (formattedTicker : String) : ℚ :=
  match getSharesOutstanding resp with
  | some v => if v ≠ 0 then v else getDefaultSharesOutstanding formattedTicker
  | none => getDefaultSharesOutstanding formattedTicker

/-! ### Market-cap computation (`POST`, route.ts lines 448–466) -/

/-- Model of `ticker.includes('.') ? ticker : ticker + '.US'` (route.ts line 432). -/
def formatTicker (ticker : String) : String :=
  if ticker.data.contains '.' then ticker else ticker ++ ".US"

/-- The result object assembled by `POST`.  `price_adjustment_note` carries
the percentage `(adjustedPrice / rawPrice - 1) * 100` stated by the note
(before the `toFixed(1)` rendering), `none` when no note is attached. -/
structure MarketCapResult where
  ticker : String
  date : Nat
  price : ℚ
  adjusted_price : ℚ
  shares_outstanding : ℚ
  market_cap : ℚ
  market_cap_billions : ℚ
  price_adjustment_note : Option ℚ
deriving Repr, DecidableEq

/-- JS `Math.abs`. -/
def jsAbs (q : ℚ) : ℚ := if q < 0 then -q else q

/-- The computation of `POST` (route.ts lines 448–466) once `priceData` and
`sharesOutstanding` have been resolved. -/
def computePost (formattedTicker : String) (priceData : EODHDPriceData)
    (sharesOutstanding : ℚ) : MarketCapResult :=
  let rawPrice := priceData.close
  let adjustedPrice := priceData.adjusted_close
  let marketCap := adjustedPrice * sharesOutstanding
  let marketCapBillions := marketCap / 1000000000
  { ticker := formattedTicker
    date := priceData.date
    price := rawPrice
    adjusted_price := adjustedPrice
    shares_outstanding := sharesOutstanding
    market_cap := marketCap
    market_cap_billions := marketCapBillions
    price_adjustment_note :=
      if 1 / 100 < jsAbs (adjustedPrice - rawPrice) then
        some ((adjustedPrice / rawPrice - 1) * 100)
      else none }

/-! ### Client batch orchestrator (`MarketCapForm.tsx`, `processData` lines 128–240)

The client talks to the API route over HTTP; one `fetch` of
`POST /api/market-cap` is abstracted as an oracle
`api : ticker → date → ApiOutcome`.  The embedding instruments the state
with the trace of fetches issued (`calls`). -/

/-- The client-side result record (`MarketCapData` interface, lines 6–17). -/
structure MarketCapData where
  ticker : String
  year : String
  date : String
  price : Option ℚ
  adjusted_price : Option ℚ
  shares_outstanding : Option ℚ
  market_cap : Option ℚ
  market_cap_billions : Option ℚ
deriving Repr, DecidableEq

/-- The client-side error record (`ErrorData` interface, lines 19–24). -/
structure ErrorData where
  ticker : String
  year : String
  date : String
  error : String
deriving Repr, DecidableEq

/-- Outcome of one `fetch` of the route as seen by the client loop: a
non-ok response (thrown as `HTTP <status>: <statusText>`, lines 185–187), a
JSON body with an `error` field (line 191), or a success record. -/
inductive ApiOutcome where
  | httpError (status : Nat) (statusText : String)
  | errorField (msg : String)
  | success (data : MarketCapData)
deriving Repr, DecidableEq

/-- Accumulators and progress counters of one run (`allResults`,
`allErrors`, `completed`, `failed`), plus the instrumented fetch trace. -/
structure BatchState where
  results : List MarketCapData
  errors : List ErrorData
  completed : Nat
  failed : Nat
  calls : List (String × String)
deriving Repr, DecidableEq

def initialBatchState : BatchState := ⟨[], [], 0, 0, []⟩

/-- The `startOfYearDates` default map (lines 45–62). -/
def defaultStartOfYearDates : List (String × String) :=
  [("2010", "2010-01-05"), ("2011", "2011-01-04"), ("2012", "2012-01-03"),
   ("2013", "2013-01-02"), ("2014", "2014-01-07"), ("2015", "2015-01-06"),
   ("2016", "2016-01-05"), ("2017", "2017-01-03"), ("2018", "2018-01-02"),
   ("2019", "2019-01-02"), ("2020", "2020-01-07"), ("2021", "2021-01-05"),
   ("2022", "2022-01-04"), ("2023", "2023-01-03"), ("2024", "2024-01-02"),
   ("2025", "2025-01-07")]

/-- Line 175: `startOfYearDates[year.toString()] || ` followed by the
template `${year}-01-02` (JS `||`: an absent or empty entry falls back). -/
def lookupDate (dates : List (String × String)) (year : Nat) : String :=
  match dates.find? (fun p => p.1 == toString year) with
  | some p => if p.2 ≠ "" then p.2 else toString year ++ "-01-02"
  | none => toString year ++ "-01-02"

/-- Lines 145–148: `Array.from({length: endYear - startYear + 1}, (_, i) => startYear + i)`
(an empty list when `endYear < startYear`, as in JS). -/
def yearsList (startYear endYear : Nat) : List Nat :=
  (List.range (endYear + 1 - startYear)).map (fun i => startYear + i)

/-- The enumeration order of the nested loops (lines 164–165):
ticker-major, year-minor. -/
def requestKeys (tickerList : List String) (years : List Nat) : List (String × Nat) :=
  match tickerList with
  | [] => []
  | t :: ts => years.map (fun y => (t, y)) ++ requestKeys ts years

/-- One iteration of the inner loop body (lines 175–224): issue the fetch,
classify the outcome, update accumulators and counters.  `completed` is
incremented unconditionally (line 221); `failed` only on the two error
paths (lines 198 and 218). -/
def processStep (api : String → String → ApiOutcome) (dates : List (String × String))
    (st : BatchState) (key : String × Nat) : BatchState :=
  let ticker := key.1
  let year := key.2
  let date := lookupDate dates year
  match api ticker date with
  | .httpError status statusText =>
    { st with
      errors := st.errors ++
        [⟨ticker, toString year, date, "HTTP " ++ toString status ++ ": " ++ statusText⟩]
      failed := st.failed + 1
      completed := st.completed + 1
      calls := st.calls ++ [(ticker, date)] }
  | .errorField msg =>
    { st with
      errors := st.errors ++ [⟨ticker, toString year, date, msg⟩]
      failed := st.failed + 1
      completed := st.completed + 1
      calls := st.calls ++ [(ticker, date)] }
  | .success d =>
    { st with
      results := st.results ++ [{ d with year := toString year }]
      completed := st.completed + 1
      calls := st.calls ++ [(ticker, date)] }

/-- A run that reaches natural completion: the loop body folded over the
whole enumerated request space. -/
def processRun (api : String → String → ApiOutcome) (dates : List (String × String))
    (tickerList : List String) (years : List Nat) : BatchState :=
  (requestKeys tickerList years).foldl (processStep api dates) initialBatchState

/-- A run on which `handleStop` (lines 256–266) fired while request `n` was
the next to start: the abort check at the top of the loop (lines 167–170)
makes the loop return after the first `n` requests, issuing no further
fetch and leaving the accumulators as they were. -/
def processRunStopped (api : String → String → ApiOutcome) (dates : List (String × String))
    (tickerList : List String) (years : List Nat) (n : Nat) : BatchState :=
  ((requestKeys tickerList years).take n).foldl (processStep api dates) initialBatchState

/-- Model of `waitForResume` (lines 112–120): the returned promise resolves
immediately iff the `isPaused` binding it reads is `false` (otherwise it
parks its resolver in `pauseResolveRef`). -/
def waitForResumeResolvesImmediately (isPausedRead : Bool) : Bool :=
  !isPausedRead

/-- The loop with the pause gate made explicit.  `isPausedCaptured` is the
value of the `isPaused` binding that the running closure reads;
`liveIsPaused i` is the value the `handlePause`/`handleResume` buttons have
set by the time request `i` starts (a re-render rebinds `isPaused`, but the
running invocation of `processData` keeps the binding of the render that
created it, so the gate consults `isPausedCaptured`, never `liveIsPaused`).
A closed gate blocks the loop at that point. -/
def processLoopWithPause (api : String → String → ApiOutcome)
    (dates : List (String × String)) (isPausedCaptured : Bool)
    (liveIsPaused : Nat → Bool) :
    BatchState → List (String × Nat) → Nat → BatchState
  | st, [], _ => st
  | st, k :: ks, i =>
    if waitForResumeResolvesImmediately isPausedCaptured then
      processLoopWithPause api dates isPausedCaptured liveIsPaused
        (processStep api dates st k) ks (i + 1)
    else st

/-- A full run during which the user pauses/resumes according to
`liveIsPaused`.  `processData` starts with `setIsPaused(false)` and is
invoked from a render in which `isPaused = false`, so the captured binding
is `false`. -/
def processRunWithPause (api : String → String → ApiOutcome)
    (dates : List (String × String)) (tickerList : List String)
    (years : List Nat) (liveIsPaused : Nat → Bool) : BatchState :=
  processLoopWithPause api dates false liveIsPaused
    initialBatchState (requestKeys tickerList years) 0

/-! ### Pivot builder (`MarketCapForm.tsx`, `createPivotData` lines 277–299) -/

/-- The numeric fields the three pivot exports pass as `field`
(lines 302–318). -/
inductive MCField where
  | price
  | adjusted_price
  | shares_outstanding
  | market_cap
  | market_cap_billions
deriving Repr, DecidableEq

def getField (r : MarketCapData) : MCField → Option ℚ
  | .price => r.price
  | .adjusted_price => r.adjusted_price
  | .shares_outstanding => r.shares_outstanding
  | .market_cap => r.market_cap
  | .market_cap_billions => r.market_cap_billions

/-- JS `String.prototype.replace` with a string pattern: remove the first
occurrence of `pat` (used as `.replace('.US', '')`, line 280). -/
def removeFirstSub (pat : List Char) : List Char → List Char
  | [] => []
  | c :: cs =>
    if (c :: cs).take pat.length = pat then (c :: cs).drop pat.length
    else c :: removeFirstSub pat cs

def stripUS (s : String) : String :=
  String.mk (removeFirstSub ['.', 'U', 'S'] s.data)

/-- JS `new Set(...)`: deduplication keeping first occurrences. -/
def setDedupAux (seen : List String) : List String → List String
  | [] => []
  | x :: xs => if x ∈ seen then setDedupAux seen xs else x :: setDedupAux (x :: seen) xs

def setDedup (l : List String) : List String := setDedupAux [] l

/-- One cell of the pivot body (lines 289–293): the first result matching
the ticker/year, rendered, or the empty string. -/
def pivotCell (results : List MarketCapData) (field : MCField) (t y : String) : String :=
  match results.find? (fun r => stripUS r.ticker == t && r.year == y) with
  | some r =>
    match getField r field with
    | some v => toString v
    | none => ""
  | none => ""

/-- Model of `createPivotData` (lines 277–299): header row of `'Ticker'` and every
selected year, then one row per distinct normalized ticker, sorted. -/
def createPivotData (results : List MarketCapData) (field : MCField)
    (startYear endYear : Nat) : List (List String) :=
  let selectedYears := (yearsList startYear endYear).map toString
  let tickerList :=
    List.insertionSort (· ≤ ·) (setDedup (results.map (fun r => stripUS r.ticker)))
  let headers := "Ticker" :: selectedYears
  let rows := tickerList.map (fun t =>
    t :: selectedYears.map (fun y => pivotCell results field t y))
  headers :: rows

/-! ### Loop invariants of `processData` -/

theorem processStep_completed (api : String → String → ApiOutcome)
    (dates : List (String × String)) (st : BatchState) (k : String × Nat) :
    (processStep api dates st k).completed = st.completed + 1 := by
  cases h : api k.1 (lookupDate dates k.2) <;> simp [processStep, h]

theorem processStep_calls (api : String → String → ApiOutcome)
    (dates : List (String × String)) (st : BatchState) (k : String × Nat) :
    (processStep api dates st k).calls = st.calls ++ [(k.1, lookupDate dates k.2)] := by
  cases h : api k.1 (lookupDate dates k.2) <;> simp [processStep, h]

theorem processStep_counts (api : String → String → ApiOutcome)
    (dates : List (String × String)) (st : BatchState) (k : String × Nat)
    (h1 : st.failed = st.errors.length)
    (h2 : st.completed = st.results.length + st.errors.length) :
    (processStep api dates st k).failed = (processStep api dates st k).errors.length ∧
    (processStep api dates st k).completed =
      (processStep api dates st k).results.length +
        (processStep api dates st k).errors.length := by
  cases h : api k.1 (lookupDate dates k.2) <;> simp [processStep, h, h1, h2] <;> omega

theorem foldl_processStep_completed (api : String → String → ApiOutcome)
    (dates : List (String × String)) :
    ∀ (keys : List (String × Nat)) (st : BatchState),
      (keys.foldl (processStep api dates) st).completed = st.completed + keys.length := by
  intro keys
  induction keys with
  | nil => intro st; simp
  | cons k ks ih =>
    intro st
    simp only [List.foldl_cons, List.length_cons]
    rw [ih, processStep_completed]
    omega

theorem foldl_processStep_calls (api : String → String → ApiOutcome)
    (dates : List (String × String)) :
    ∀ (keys : List (String × Nat)) (st : BatchState),
      (keys.foldl (processStep api dates) st).calls =
        st.calls ++ keys.map (fun k => (k.1, lookupDate dates k.2)) := by
  intro keys
  induction keys with
  | nil => intro st; simp
  | cons k ks ih =>
    intro st
    simp only [List.foldl_cons, List.map_cons]
    rw [ih, processStep_calls]
    simp

theorem foldl_processStep_counts (api : String → String → ApiOutcome)
    (dates : List (String × String)) :
    ∀ (keys : List (String × Nat)) (st : BatchState),
      st.failed = st.errors.length →
      st.completed = st.results.length + st.errors.length →
      (keys.foldl (processStep api dates) st).failed =
        (keys.foldl (processStep api dates) st).errors.length ∧
      (keys.foldl (processStep api dates) st).completed =
        (keys.foldl (processStep api dates) st).results.length +
          (keys.foldl (processStep api dates) st).errors.length := by
  intro keys
  induction keys with
  | nil => intro st h1 h2; exact ⟨h1, h2⟩
  | cons k ks ih =>
    intro st h1 h2
    have step := processStep_counts api dates st k h1 h2
    exact ih (processStep api dates st k) step.1 step.2

theorem requestKeys_length (tickerList : List String) (years : List Nat) :
    (requestKeys tickerList years).length = tickerList.length * years.length := by
  induction tickerList with
  | nil => simp [requestKeys]
  | cons t ts ih =>
    simp only [requestKeys, List.length_append, List.length_map, List.length_cons, ih]
    ring

theorem requestKeys_fst_mem (tickerList : List String) (years : List Nat) :
    ∀ k ∈ requestKeys tickerList years, k.1 ∈ tickerList := by
  induction tickerList with
  | nil => intro k hk; simp [requestKeys] at hk
  | cons t ts ih =>
    intro k hk
    rcases List.mem_append.mp hk with h | h
    · rcases List.mem_map.mp h with ⟨y, _, rfl⟩
      simp
    · exact List.mem_cons_of_mem t (ih k h)

/-! ### Scenario fixtures (concrete inputs used by counterexamples and witnesses) -/

/-- The record the API returns for AAPL in the end-to-end scenario. -/
def aaplRec : MarketCapData :=
  ⟨"AAPL.US", "", "2020-01-07", some 100, some 100, some 15400000000,
   some 1540000000000, some 1540⟩

/-- Scenario oracle: AAPL always succeeds; any other ticker exhausts all
candidate dates, so the route answers HTTP 500 (`No price data available`). -/
def scenApi : String → String → ApiOutcome := fun t _ =>
  if t = "AAPL" then .success aaplRec else .httpError 500 "Internal Server Error"

/-- C1 — counterexample.  In the end-to-end scenario
(tickers AAPL and ZZZZ, years 2020 and 2021, ZZZZ failing every request),
the final counters are `completed = 4, failed = 2`: `completed` counts
every processed request (line 221 increments it unconditionally), so
`completed + failed = 6 ≠ 4 = |tickers| × |years|` and `completed ≠ 2`. -/
theorem C1_counterexample :
    (processRun scenApi defaultStartOfYearDates ["AAPL", "ZZZZ"] [2020, 2021]).completed = 4 ∧
    (processRun scenApi defaultStartOfYearDates ["AAPL", "ZZZZ"] [2020, 2021]).failed = 2 ∧
    ¬((processRun scenApi defaultStartOfYearDates ["AAPL", "ZZZZ"] [2020, 2021]).completed +
        (processRun scenApi defaultStartOfYearDates ["AAPL", "ZZZZ"] [2020, 2021]).failed =
          2 * 2 ∧
      (processRun scenApi defaultStartOfYearDates ["AAPL", "ZZZZ"] [2020, 2021]).completed =
        2) := by
  decide

/-- C1 (amended): at natural completion of a batch run in which every
selected year has a configured date, `completed = total = |tickers| × |years|`,
while `failed` counts the subset of requests that ended in the error
accumulator: `failed = |errors|` and `completed = |results| + |errors|`. -/
theorem C1_completion_counters (api : String → String → ApiOutcome)
    (dates : List (String × String)) (tickerList : List String) (years : List Nat)
    (hdates : ∀ y ∈ years, (dates.find? (fun p => p.1 == toString y)).isSome = true) :
    (processRun api dates tickerList years).completed = tickerList.length * years.length ∧
    (processRun api dates tickerList years).failed =
      (processRun api dates tickerList years).errors.length ∧
    (processRun api dates tickerList years).completed =
      (processRun api dates tickerList years).results.length +
        (processRun api dates tickerList years).errors.length := by
  have hc := foldl_processStep_completed api dates (requestKeys tickerList years)
    initialBatchState
  have hk := requestKeys_length tickerList years
  have hg := foldl_processStep_counts api dates (requestKeys tickerList years)
    initialBatchState rfl rfl
  refine ⟨?_, hg.1, hg.2⟩
  have h3 : (processRun api dates tickerList years).completed =
      (List.foldl (processStep api dates) initialBatchState
        (requestKeys tickerList years)).completed := rfl
  have hi : initialBatchState.completed = 0 := rfl
  omega

theorem C1_completion_counters_witness :
    (processRun scenApi defaultStartOfYearDates ["AAPL", "ZZZZ"] [2020, 2021]).completed =
      2 * 2 :=
  (C1_completion_counters scenApi defaultStartOfYearDates ["AAPL", "ZZZZ"] [2020, 2021]
    (by decide)).1

/-- C3 — counterexample.  Year 1990 has no entry in the default
year-to-date map, yet the run issues the network call for (AAPL, 1990)
with the substituted default date `1990-01-02`, and no error row is
recorded — the claim demands a `MissingYearDate` hard error and no
network call. -/
theorem C3_counterexample :
    (processRun scenApi defaultStartOfYearDates ["AAPL"] [1990]).calls =
      [("AAPL", "1990-01-02")] ∧
    (processRun scenApi defaultStartOfYearDates ["AAPL"] [1990]).errors = [] ∧
    ¬((processRun scenApi defaultStartOfYearDates ["AAPL"] [1990]).calls = [] ∧
      (processRun scenApi defaultStartOfYearDates ["AAPL"] [1990]).errors ≠ []) := by
  decide

/-- C3 (amended): for a (ticker, year) pair whose year has no entry in
the configured year-to-date map, line 175 substitutes the default date
`${year}-01-02` and the request proceeds normally — exactly one network
call is made for the pair and (when the provider answers successfully) no
error is recorded. -/
theorem C3_missing_year_defaults (api : String → String → ApiOutcome)
    (dates : List (String × String)) (t : String) (y : Nat) (d : MarketCapData)
    (hmiss : dates.find? (fun p => p.1 == toString y) = none)
    (hapi : api t (toString y ++ "-01-02") = .success d) :
    (processRun api dates [t] [y]).calls = [(t, toString y ++ "-01-02")] ∧
    (processRun api dates [t] [y]).errors = [] ∧
    (processRun api dates [t] [y]).completed = 1 ∧
    (processRun api dates [t] [y]).failed = 0 := by
  have hdate : lookupDate dates y = toString y ++ "-01-02" := by
    simp [lookupDate, hmiss]
  simp [processRun, requestKeys, processStep, initialBatchState, hdate, hapi]

theorem C3_missing_year_defaults_witness :
    (processRun scenApi defaultStartOfYearDates ["AAPL"] [1991]).errors = [] :=
  (C3_missing_year_defaults scenApi defaultStartOfYearDates "AAPL" 1991 aaplRec
    (by decide) (by decide)).2.1

/-- The pause gate of the running closure never closes: the `isPaused`
binding it reads is the one captured at run start. -/
theorem processLoopWithPause_eq_foldl (api : String → String → ApiOutcome)
    (dates : List (String × String)) (liveIsPaused : Nat → Bool) :
    ∀ (keys : List (String × Nat)) (st : BatchState) (i : Nat),
      processLoopWithPause api dates false liveIsPaused st keys i =
        keys.foldl (processStep api dates) st := by
  intro keys
  induction keys with
  | nil => intro st i; rfl
  | cons k ks ih =>
    intro st i
    simpa [processLoopWithPause, waitForResumeResolvesImmediately]
      using ih (processStep api dates st k) (i + 1)

/-- C5 — the code, evaluated.  Because `waitForResume` reads the
`isPaused` binding captured when `processData` was created (which is
`false` for the running invocation), any pause/resume schedule produces a
run identical to an unpaused run: the loop never blocks.  In particular, a
run of 2 tickers × 2 years with the live pause flag held `true` from the
very first request still completes all 4 requests.  (The claim's
no-loss/no-reorder property holds trivially; its "the loop blocks before
beginning each new request while the pause flag is set" is what fails.) -/
theorem C5_pause_never_blocks (api : String → String → ApiOutcome)
    (dates : List (String × String)) (tickerList : List String) (years : List Nat)
    (liveIsPaused : Nat → Bool) :
    processRunWithPause api dates tickerList years liveIsPaused =
      processRun api dates tickerList years ∧
    (processRunWithPause scenApi defaultStartOfYearDates ["AAPL", "ZZZZ"] [2020, 2021]
        (fun _ => true)).completed = 4 := by
  constructor
  · exact processLoopWithPause_eq_foldl api dates liveIsPaused
      (requestKeys tickerList years) initialBatchState 0
  · decide

/-- C7 — counterexample.  Stopping the scenario run (ZZZZ first) after
3 processed requests gives `completed = 3, failed = 2`, so
`completed + failed = 5`, which is not `< total = 4`: the claim's strict
inequality `completed + failed < total` fails mid-run. -/
theorem C7_counterexample :
    (processRunStopped scenApi defaultStartOfYearDates ["ZZZZ", "AAPL"] [2020, 2021]
        3).completed = 3 ∧
    (processRunStopped scenApi defaultStartOfYearDates ["ZZZZ", "AAPL"] [2020, 2021]
        3).failed = 2 ∧
    ¬((processRunStopped scenApi defaultStartOfYearDates ["ZZZZ", "AAPL"] [2020, 2021]
          3).completed +
        (processRunStopped scenApi defaultStartOfYearDates ["ZZZZ", "AAPL"] [2020, 2021]
          3).failed <
        2 * 2) := by
  decide

/-- C7 (amended): when `stop()` fires before natural completion (after
`n < total` processed requests), no further request is started — the fetch
trace is exactly that of the first `n` enumerated keys — the accumulated
results and errors are retained (`|results| + |errors| = n`), and
`completed < total` strictly (`completed = n`; `failed` is part of
`completed`, so `completed + failed` may reach or exceed `total`). -/
theorem C7_stop_semantics (api : String → String → ApiOutcome)
    (dates : List (String × String)) (tickerList : List String) (years : List Nat)
    (n : Nat) (h : n < tickerList.length * years.length) :
    (processRunStopped api dates tickerList years n).completed = n ∧
    (processRunStopped api dates tickerList years n).completed <
      tickerList.length * years.length ∧
    (processRunStopped api dates tickerList years n).calls =
      ((requestKeys tickerList years).take n).map
        (fun k => (k.1, lookupDate dates k.2)) ∧
    (processRunStopped api dates tickerList years n).results.length +
      (processRunStopped api dates tickerList years n).errors.length = n := by
  have hlen : ((requestKeys tickerList years).take n).length = n := by
    rw [List.length_take, requestKeys_length]
    omega
  have hc := foldl_processStep_completed api dates
    ((requestKeys tickerList years).take n) initialBatchState
  have hcalls := foldl_processStep_calls api dates
    ((requestKeys tickerList years).take n) initialBatchState
  have hg := foldl_processStep_counts api dates
    ((requestKeys tickerList years).take n) initialBatchState rfl rfl
  have h3 : (processRunStopped api dates tickerList years n).completed =
      (List.foldl (processStep api dates) initialBatchState
        ((requestKeys tickerList years).take n)).completed := rfl
  have hi : initialBatchState.completed = 0 := rfl
  have hcomp : (processRunStopped api dates tickerList years n).completed = n := by omega
  refine ⟨hcomp, by rw [hcomp]; exact h, ?_, ?_⟩
  · unfold processRunStopped
    rw [hcalls]
    rfl
  · have h2 := hg.2
    have h4 : (processRunStopped api dates tickerList years n).results.length +
        (processRunStopped api dates tickerList years n).errors.length =
        (List.foldl (processStep api dates) initialBatchState
          ((requestKeys tickerList years).take n)).results.length +
        (List.foldl (processStep api dates) initialBatchState
          ((requestKeys tickerList years).take n)).errors.length := rfl
    omega

theorem C7_stop_semantics_witness :
    (processRunStopped scenApi defaultStartOfYearDates ["AAPL", "ZZZZ"] [2020, 2021]
        1).completed = 1 :=
  (C7_stop_semantics scenApi defaultStartOfYearDates ["AAPL", "ZZZZ"] [2020, 2021] 1
    (by decide)).1

/-! ### Properties of the fallback-date resolution -/

/-- The trace of `tryDates` is an initial segment of the candidate list. -/
theorem tryDates_trace_take (provider : Nat → EodResponse) :
    ∀ ds : List Nat, ∃ m, (tryDates provider ds).2 = ds.take m := by
  intro ds
  induction ds with
  | nil => exact ⟨0, rfl⟩
  | cons d rest ih =>
    cases h : tryFetchPriceForDate (provider d) with
    | error e =>
      rcases ih with ⟨m, hm⟩
      exact ⟨m + 1, by simp [tryDates, h, hm]⟩
    | ok o =>
      cases o with
      | none =>
        rcases ih with ⟨m, hm⟩
        exact ⟨m + 1, by simp [tryDates, h, hm]⟩
      | some r => exact ⟨1, by simp [tryDates, h]⟩

theorem cons_fallback_eq (d : Nat) :
    d :: generateFallbackDates d = [d, d + 1, d + 2, d + 3, d + 4, d + 5] := rfl

theorem cons_fallback_sorted (d : Nat) :
    List.Pairwise (· < ·) (d :: generateFallbackDates d) := by
  rw [cons_fallback_eq]
  repeat' constructor
  all_goals simp only [List.mem_cons, List.mem_singleton, List.not_mem_nil, or_false]
  all_goals intro x hx
  all_goals rcases hx with rfl | rfl | rfl | rfl | rfl <;> omega

theorem getSplit_trace_take (provider : Nat → EodResponse) (d : Nat) :
    ∃ m, (getSplitAdjustedPriceWithFallback provider d).2 =
      (d :: generateFallbackDates d).take m := by
  cases h : tryFetchPriceForDate (provider d) with
  | error e =>
    rcases tryDates_trace_take provider (generateFallbackDates d) with ⟨m, hm⟩
    exact ⟨m + 1, by simp [getSplitAdjustedPriceWithFallback, h, hm]⟩
  | ok o =>
    cases o with
    | none =>
      rcases tryDates_trace_take provider (generateFallbackDates d) with ⟨m, hm⟩
      exact ⟨m + 1, by simp [getSplitAdjustedPriceWithFallback, h, hm]⟩
    | some r => exact ⟨1, by simp [getSplitAdjustedPriceWithFallback, h]⟩

/-- C2 — counterexample.  With a provider that answers every call with
a transport failure (HTTP 500), the resolution of requested day 100
attempts the six candidate dates 100..105 once each and gives up: the
transport-failed attempt on day 100 is never re-attempted (it occurs once
in the trace, not the 3 times a `withRetry(maxAttempts = 3)` wrapper
would produce), and no backoff loop exists. -/
theorem C2_counterexample :
    (getSplitAdjustedPriceWithFallback (fun _ => .httpError 500 "Internal Server Error")
        100).2 = [100, 101, 102, 103, 104, 105] ∧
    (getSplitAdjustedPriceWithFallback (fun _ => .httpError 500 "Internal Server Error")
        100).2.count 100 = 1 ∧
    ¬((getSplitAdjustedPriceWithFallback (fun _ => .httpError 500 "Internal Server Error")
        100).2.count 100 = 3) := by
  decide

/-- C2 (amended): no retry/backoff wrapper exists.  During price
resolution every candidate date is attempted at most once — the trace of
provider calls is strictly increasing — and all attempts stay within
`requestedDate .. requestedDate + 5`; a transport failure on a date is
treated as no data for that date and resolution moves on to the next
candidate date. -/
theorem C2_single_attempt_per_date (provider : Nat → EodResponse) (d : Nat) :
    List.Pairwise (· < ·) (getSplitAdjustedPriceWithFallback provider d).2 ∧
    ∀ x ∈ (getSplitAdjustedPriceWithFallback provider d).2, d ≤ x ∧ x ≤ d + 5 := by
  rcases getSplit_trace_take provider d with ⟨m, hm⟩
  rw [hm]
  constructor
  · exact List.Pairwise.sublist (List.take_sublist m _) (cons_fallback_sorted d)
  · intro x hx
    have hx' : x ∈ d :: generateFallbackDates d := List.mem_of_mem_take hx
    rw [cons_fallback_eq] at hx'
    simp only [List.mem_cons, List.mem_singleton, List.not_mem_nil, or_false] at hx'
    rcases hx' with rfl | rfl | rfl | rfl | rfl | rfl <;> omega

theorem C2_single_attempt_per_date_witness :
    (100 : Nat) ≤ 101 ∧ (101 : Nat) ≤ 100 + 5 :=
  (C2_single_attempt_per_date (fun _ => .httpError 500 "Internal Server Error") 100).2
    101 (by decide)

/-- If the first `i` candidates yield no record and candidate `i` yields
record `r`, `tryDates` resolves to `r` having attempted exactly the
candidates up to and including `i`. -/
theorem tryDates_found (provider : Nat → EodResponse) :
    ∀ (ds : List Nat) (i dk : Nat) (r : EODHDPriceData),
      ds[i]? = some dk →
      (∀ j, j < i → ∀ dj, ds[j]? = some dj → ∀ rec : EODHDPriceData,
        tryFetchPriceForDate (provider dj) ≠ .ok (some rec)) →
      tryFetchPriceForDate (provider dk) = .ok (some r) →
      tryDates provider ds = (some r, ds.take (i + 1)) := by
  intro ds
  induction ds with
  | nil => intro i dk r hget; simp at hget
  | cons dhd rest ih =>
    intro i dk r hget hfail hsucc
    cases i with
    | zero =>
      simp only [List.getElem?_cons_zero, Option.some.injEq] at hget
      subst hget
      simp [tryDates, hsucc]
    | succ i' =>
      have hhd : ∀ rec : EODHDPriceData,
          tryFetchPriceForDate (provider dhd) ≠ .ok (some rec) :=
        hfail 0 (Nat.succ_pos _) dhd (by simp)
      have hget' : rest[i']? = some dk := by simpa using hget
      have hfail' : ∀ j, j < i' → ∀ dj, rest[j]? = some dj →
          ∀ rec : EODHDPriceData, tryFetchPriceForDate (provider dj) ≠ .ok (some rec) := by
        intro j hj dj hdj
        have : (dhd :: rest)[j + 1]? = some dj := by simpa using hdj
        exact hfail (j + 1) (by omega) dj this
      have hrest := ih i' dk r hget' hfail' hsucc
      cases h : tryFetchPriceForDate (provider dhd) with
      | error e => simp [tryDates, h, hrest]
      | ok o =>
        cases o with
        | none => simp [tryDates, h, hrest]
        | some rec => exact absurd h (hhd rec)

/-- C4 (as claimed): if the exact requested date yields no record and
`requestedDate + k` (with `1 ≤ k ≤ 5`) is the first subsequent day the
provider answers with a valid record `r`, the resolution returns `r`, the
attempted dates are exactly `requestedDate, ..., requestedDate + k` in
increasing order, the resolved record is dated `requestedDate + k`
(provided the provider dates its rows with the queried day, as the
`from=date&to=date` query guarantees), and no date beyond
`requestedDate + 5` is attempted. -/
theorem C4_fallback_date_resolution (provider : Nat → EodResponse) (d k : Nat)
    (r : EODHDPriceData) (hk1 : 1 ≤ k) (hk5 : k ≤ 5)
    (hfail : ∀ j, j < k → ∀ rec : EODHDPriceData,
      tryFetchPriceForDate (provider (d + j)) ≠ .ok (some rec))
    (hsucc : tryFetchPriceForDate (provider (d + k)) = .ok (some r))
    (hdated : ∀ (day : Nat) (rows : List RawDay), provider day = .json rows →
      ∀ row ∈ rows, row.date = day) :
    getSplitAdjustedPriceWithFallback provider d =
      (some r, (List.range (k + 1)).map (fun i => d + i)) ∧
    r.date = d + k ∧
    ∀ x ∈ (getSplitAdjustedPriceWithFallback provider d).2, x ≤ d + 5 := by
  have hget : (generateFallbackDates d)[k - 1]? = some (d + k) := by
    have h5 : k - 1 < 5 := by omega
    have hidx : d + (k - 1) + 1 = d + k := by omega
    unfold generateFallbackDates
    rw [List.getElem?_map, List.getElem?_range h5]
    have hmap : Option.map (fun i => d + i + 1) (some (k - 1)) =
        some (d + (k - 1) + 1) := rfl
    rw [hmap, hidx]
  have hfail' : ∀ j, j < k - 1 → ∀ dj, (generateFallbackDates d)[j]? = some dj →
      ∀ rec : EODHDPriceData, tryFetchPriceForDate (provider dj) ≠ .ok (some rec) := by
    intro j hj dj hdj
    unfold generateFallbackDates at hdj
    rw [List.getElem?_map, List.getElem?_range (by omega)] at hdj
    have hdj' : some (d + j + 1) = some dj := hdj
    cases hdj'
    exact hfail (j + 1) (by omega)
  have htd := tryDates_found provider (generateFallbackDates d) (k - 1) (d + k) r
    (by simpa using hget) hfail' hsucc
  have hk1' : k - 1 + 1 = k := by omega
  rw [hk1'] at htd
  have htake : (generateFallbackDates d).take k =
      (List.range k).map (fun i => d + i + 1) := by
    unfold generateFallbackDates
    rw [← List.map_take, List.take_range, inf_eq_left.mpr hk5]
  have htrace : d :: (List.range k).map (fun i => d + i + 1) =
      (List.range (k + 1)).map (fun i => d + i) := by
    rw [List.range_succ_eq_map, List.map_cons, List.map_map]
    have hfun : ((fun i => d + i) ∘ Nat.succ) = (fun i => d + i + 1) := by
      funext i
      show d + Nat.succ i = d + i + 1
      omega
    rw [hfun]
    simp
  have hrdate : r.date = d + k := by
    cases hp : provider (d + k) with
    | httpError s t =>
      rw [hp] at hsucc
      simp [tryFetchPriceForDate] at hsucc
    | json rows =>
      cases rows with
      | nil =>
        rw [hp] at hsucc
        simp [tryFetchPriceForDate] at hsucc
      | cons row rest =>
        rw [hp] at hsucc
        cases hac : row.adjusted_close with
        | none => simp [tryFetchPriceForDate, hac] at hsucc
        | some a =>
          by_cases ha : a = 0
          · simp [tryFetchPriceForDate, hac, ha] at hsucc
          · simp only [tryFetchPriceForDate, hac, if_neg ha, Except.ok.injEq,
              Option.some.injEq] at hsucc
            rw [← hsucc]
            exact hdated (d + k) (row :: rest) hp row (List.mem_cons_self _ _)
  have hexact : ∀ rec : EODHDPriceData,
      tryFetchPriceForDate (provider d) ≠ .ok (some rec) := by
    have h0 := hfail 0 (by omega)
    simpa using h0
  have hmain : getSplitAdjustedPriceWithFallback provider d =
      (some r, (List.range (k + 1)).map (fun i => d + i)) := by
    rw [← htrace]
    cases h : tryFetchPriceForDate (provider d) with
    | error e => simp [getSplitAdjustedPriceWithFallback, h, htd, htake]
    | ok o =>
      cases o with
      | none => simp [getSplitAdjustedPriceWithFallback, h, htd, htake]
      | some rec => exact absurd h (hexact rec)
  refine ⟨hmain, hrdate, ?_⟩
  rw [hmain]
  intro x hx
  simp only [List.mem_map, List.mem_range] at hx
  rcases hx with ⟨i, hi, rfl⟩
  omega

/-- Provider fixture for the C4 witness: day 3 carries a valid record,
every other day returns an empty payload. -/
def c4Row : RawDay := ⟨3, 10, 11, 9, 10, some 9, 1000⟩

def c4Provider : Nat → EodResponse := fun day =>
  if day = 3 then .json [c4Row] else .json []

theorem C4_fallback_date_resolution_witness :
    getSplitAdjustedPriceWithFallback c4Provider 2 =
      (some ⟨3, 10, 11, 9, 10, 9, 1000⟩, [2, 3]) :=
  ((C4_fallback_date_resolution c4Provider 2 1 ⟨3, 10, 11, 9, 10, 9, 1000⟩
    (by decide) (by decide)
    (by
      intro j hj rec
      have hj0 : j = 0 := by omega
      subst hj0
      simp [c4Provider, tryFetchPriceForDate])
    (by rfl)
    (by
      intro day rows hrows row hrow
      unfold c4Provider at hrows
      by_cases hday : day = 3
      · subst hday
        rw [if_pos rfl] at hrows
        cases hrows
        simp only [List.mem_singleton] at hrow
        subst hrow
        rfl
      · rw [if_neg hday] at hrows
        cases hrows
        simp at hrow)).1).trans (by decide)

/-! ### Shares resolution and market-cap computation -/

/-- C6: shares resolution never produces a hard error (it is a total
function into ℚ); a provider-supplied value is accepted only when strictly
positive; a zero, negative or absent value falls through to the static
default table keyed by the formatted ticker; and a ticker absent from both
the provider response and the table resolves to exactly 1,000,000,000. -/
theorem C6_shares_resolution (resp : FundamentalsResponse) (t : String) :
    (∀ v, getSharesOutstanding resp = some v → 0 < v) ∧
    (getSharesOutstanding resp = none →
      resolveShares resp t = getDefaultSharesOutstanding t) ∧
    (getSharesOutstanding resp = none →
      defaultSharesTable.find? (fun p => p.1 == t) = none →
      resolveShares resp t = 1000000000) := by
  refine ⟨?_, ?_, ?_⟩
  · intro v hv
    cases resp with
    | httpError s => simp [getSharesOutstanding] at hv
    | thrown => simp [getSharesOutstanding] at hv
    | json fd =>
      simp only [getSharesOutstanding] at hv
      generalize jsOr fd.sharesStatsSharesOutstanding
        (jsOr fd.highlightsSharesOutstanding
          (jsOr fd.generalSharesOutstanding
            (jsOr fd.shareStatsSharesOutstanding fd.outstandingShares))) = x at hv
      cases x with
      | none => simp at hv
      | some w =>
        have hv' : (if w ≠ 0 ∧ 0 < w then some w else none) = some v := hv
        by_cases hw : w ≠ 0 ∧ 0 < w
        · rw [if_pos hw] at hv'
          cases hv'
          exact hw.2
        · rw [if_neg hw] at hv'
          simp at hv' 
  · intro h
    simp [resolveShares, h]
  · intro h hfind
    simp [resolveShares, h, getDefaultSharesOutstanding, hfind]

/-- Fundamentals body carrying no shares figure under any alias. -/
def emptyFundamentals : FundamentalsData := ⟨none, none, none, none, none⟩

theorem C6_shares_resolution_witness :
    resolveShares (.json emptyFundamentals) "ZZZZ.US" = 1000000000 :=
  (C6_shares_resolution (.json emptyFundamentals) "ZZZZ.US").2.2 (by decide) (by decide)

/-- C8: the `POST` computation satisfies
`market_cap = adjusted_price × shares` and
`market_cap_billions = market_cap / 1e9`; the adjustment note is attached
exactly when `|adjusted − raw| > 0.01` and then states
`(adjusted/raw − 1) × 100`; for raw 100 and adjusted 95 the note states
−5.0%, and for raw = adjusted = 100 there is no note. -/
theorem C8_market_cap_formula :
    (∀ (ft : String) (p : EODHDPriceData) (s : ℚ),
      (computePost ft p s).market_cap = p.adjusted_close * s ∧
      (computePost ft p s).market_cap_billions = p.adjusted_close * s / 1000000000 ∧
      (computePost ft p s).price_adjustment_note =
        (if 1 / 100 < jsAbs (p.adjusted_close - p.close) then
          some ((p.adjusted_close / p.close - 1) * 100)
        else none)) ∧
    (computePost "AAPL.US" ⟨0, 100, 101, 99, 100, 95, 0⟩
      1000000000).price_adjustment_note = some (-5) ∧
    (computePost "AAPL.US" ⟨0, 100, 101, 99, 100, 100, 0⟩
      1000000000).price_adjustment_note = none ∧
    (computePost "AAPL.US" ⟨0, 100, 101, 99, 100, 95, 0⟩ 1000000000).market_cap =
      95000000000 ∧
    (computePost "AAPL.US" ⟨0, 100, 101, 99, 100, 95, 0⟩
      1000000000).market_cap_billions = 95 := by
  refine ⟨fun ft p s => ⟨rfl, rfl, rfl⟩, ?_, ?_, ?_, ?_⟩ <;> norm_num [computePost, jsAbs]

/-! ### The pivot table -/

theorem setDedupAux_mem :
    ∀ (l seen : List String) (x : String),
      x ∈ setDedupAux seen l ↔ x ∈ l ∧ x ∉ seen := by
  intro l
  induction l with
  | nil => intro seen x; simp [setDedupAux]
  | cons a as ih =>
    intro seen x
    by_cases ha : a ∈ seen
    · rw [setDedupAux, if_pos ha, ih]
      constructor
      · rintro ⟨h1, h2⟩
        exact ⟨List.mem_cons_of_mem _ h1, h2⟩
      · rintro ⟨h1, h2⟩
        rcases List.mem_cons.mp h1 with rfl | h1
        · exact absurd ha h2
        · exact ⟨h1, h2⟩
    · rw [setDedupAux, if_neg ha]
      constructor
      · intro hx
        rcases List.mem_cons.mp hx with rfl | hx
        · exact ⟨List.mem_cons_self _ _, ha⟩
        · rw [ih] at hx
          refine ⟨List.mem_cons_of_mem _ hx.1, ?_⟩
          intro hseen
          exact hx.2 (List.mem_cons_of_mem _ hseen)
      · rintro ⟨h1, h2⟩
        rcases List.mem_cons.mp h1 with rfl | h1
        · exact List.mem_cons_self _ _
        · by_cases hxa : x = a
          · subst hxa
            exact List.mem_cons_self _ _
          · refine List.mem_cons_of_mem _ ?_
            rw [ih]
            refine ⟨h1, ?_⟩
            intro hx
            rcases List.mem_cons.mp hx with h | h
            · exact hxa h
            · exact h2 h

theorem setDedupAux_nodup : ∀ (l seen : List String), (setDedupAux seen l).Nodup := by
  intro l
  induction l with
  | nil => intro seen; simp [setDedupAux]
  | cons a as ih =>
    intro seen
    by_cases ha : a ∈ seen
    · rw [setDedupAux, if_pos ha]
      exact ih seen
    · rw [setDedupAux, if_neg ha]
      refine List.nodup_cons.mpr ⟨?_, ih (a :: seen)⟩
      intro hmem
      rw [setDedupAux_mem] at hmem
      exact hmem.2 (List.mem_cons_self _ _)

theorem setDedup_nodup (l : List String) : (setDedup l).Nodup :=
  setDedupAux_nodup l []

theorem setDedup_mem (l : List String) (x : String) : x ∈ setDedup l ↔ x ∈ l := by
  unfold setDedup
  rw [setDedupAux_mem]
  simp

/-- C9: for every result set and metric, the pivot table is the header
row `Ticker, year₁, …` (one column per year of the configured range,
whether or not it has data) followed by one row per distinct normalized
ticker present in the results; the ticker rows are in strictly increasing
alphabetical order; and a (ticker, year) combination matched by no result
renders as the empty cell rather than being dropped. -/
theorem C9_pivot_table (results : List MarketCapData) (field : MCField)
    (startYear endYear : Nat) :
    createPivotData results field startYear endYear =
      ("Ticker" :: (yearsList startYear endYear).map toString) ::
        (List.insertionSort (· ≤ ·)
            (setDedup (results.map (fun r => stripUS r.ticker)))).map
          (fun t => t :: ((yearsList startYear endYear).map toString).map
            (fun y => pivotCell results field t y)) ∧
    List.Pairwise (· < ·)
      (List.insertionSort (· ≤ ·)
        (setDedup (results.map (fun r => stripUS r.ticker)))) ∧
    (∀ t, t ∈ List.insertionSort (· ≤ ·)
        (setDedup (results.map (fun r => stripUS r.ticker))) ↔
      t ∈ results.map (fun r => stripUS r.ticker)) ∧
    (∀ t y, (∀ r ∈ results, ¬(stripUS r.ticker = t ∧ r.year = y)) →
      pivotCell results field t y = "") := by
  refine ⟨rfl, ?_, ?_, ?_⟩
  · have hsorted : List.Sorted (· ≤ ·)
        (List.insertionSort (· ≤ ·)
          (setDedup (results.map (fun r => stripUS r.ticker)))) :=
      List.sorted_insertionSort _ _
    have hnodup : (List.insertionSort (· ≤ ·)
        (setDedup (results.map (fun r => stripUS r.ticker)))).Nodup :=
      (List.perm_insertionSort _ _).nodup_iff.mpr
        (setDedup_nodup (results.map (fun r => stripUS r.ticker)))
    exact hsorted.lt_of_le hnodup
  · intro t
    rw [List.mem_insertionSort, setDedup_mem]
  · intro t y h
    have hfind : results.find? (fun r => stripUS r.ticker == t && r.year == y) = none := by
      rw [List.find?_eq_none]
      intro r hr
      intro hb
      simp only [Bool.and_eq_true, beq_iff_eq] at hb
      exact h r hr ⟨hb.1, hb.2⟩
    simp [pivotCell, hfind]

/-- Fixture record for the C9 witness. -/
def msftRec : MarketCapData :=
  ⟨"MSFT.US", "2020", "2020-01-07", some 50, some 50, some 7400000000, none, none⟩

theorem C9_pivot_table_witness :
    pivotCell [msftRec] MCField.adjusted_price "AAPL" "2020" = "" :=
  (C9_pivot_table [msftRec] MCField.adjusted_price 2020 2021).2.2.2 "AAPL" "2020"
    (by decide)

/-! ### Uppercase normalization of tickers -/

theorem isAllUpper_append (s t : String) (hs : isAllUpper s = true)
    (ht : isAllUpper t = true) : isAllUpper (s ++ t) = true := by
  unfold isAllUpper at hs ht ⊢
  rw [String.data_append, List.all_append, hs, ht]
  rfl

theorem formatTicker_upper (t : String) (ht : isAllUpper t = true) :
    isAllUpper (formatTicker t) = true := by
  unfold formatTicker
  split
  · exact ht
  · exact isAllUpper_append t ".US" ht (by decide)

theorem foldl_processStep_upper (api : String → String → ApiOutcome)
    (dates : List (String × String))
    (hapi : ∀ t d r, api t d = .success r → r.ticker = formatTicker t) :
    ∀ (keys : List (String × Nat)) (st : BatchState),
      (∀ k ∈ keys, isAllUpper k.1 = true) →
      (∀ e ∈ st.errors, isAllUpper e.ticker = true) →
      (∀ r ∈ st.results, isAllUpper r.ticker = true) →
      (∀ e ∈ (keys.foldl (processStep api dates) st).errors,
        isAllUpper e.ticker = true) ∧
      (∀ r ∈ (keys.foldl (processStep api dates) st).results,
        isAllUpper r.ticker = true) := by
  intro keys
  induction keys with
  | nil => intro st _ he hr; exact ⟨he, hr⟩
  | cons k ks ih =>
    intro st hk he hr
    have hk1 : isAllUpper k.1 = true := hk k (List.mem_cons_self _ _)
    have hk' : ∀ k' ∈ ks, isAllUpper k'.1 = true :=
      fun k' h => hk k' (List.mem_cons_of_mem _ h)
    refine ih (processStep api dates st k) hk' ?_ ?_
    · intro e hee
      cases h : api k.1 (lookupDate dates k.2) with
      | httpError status statusText =>
        simp only [processStep, h, List.mem_append, List.mem_singleton] at hee
        rcases hee with hee | rfl
        · exact he e hee
        · exact hk1
      | errorField msg =>
        simp only [processStep, h, List.mem_append, List.mem_singleton] at hee
        rcases hee with hee | rfl
        · exact he e hee
        · exact hk1
      | success dat =>
        simp only [processStep, h] at hee
        exact he e hee
    · intro rr hrr
      cases h : api k.1 (lookupDate dates k.2) with
      | httpError status statusText =>
        simp only [processStep, h] at hrr
        exact hr rr hrr
      | errorField msg =>
        simp only [processStep, h] at hrr
        exact hr rr hrr
      | success dat =>
        simp only [processStep, h, List.mem_append, List.mem_singleton] at hrr
        rcases hrr with hrr | rfl
        · exact hr rr hrr
        · have hdt := hapi k.1 (lookupDate dates k.2) dat h
          show isAllUpper dat.ticker = true
          rw [hdt]
          exact formatTicker_upper k.1 hk1

/-- C10: every whitespace-separated input token is uppercased before
any request is issued — all parsed tickers are uppercase, hence so is the
ticker of every request key and of every error record, and (since the
route echoes the `.US`-formatted request ticker) of every result record;
and two inputs that agree up to letter case produce the same parsed ticker
list and therefore identical request-key sequences. -/
theorem C10_uppercase_tickers (s₁ s₂ : String) (api : String → String → ApiOutcome)
    (dates : List (String × String)) (years : List Nat)
    (hcase : s₁.data.map jsToUpper = s₂.data.map jsToUpper)
    (hapi : ∀ t d r, api t d = .success r → r.ticker = formatTicker t) :
    parseTickers s₁ = parseTickers s₂ ∧
    requestKeys (parseTickers s₁) years = requestKeys (parseTickers s₂) years ∧
    (∀ t ∈ parseTickers s₁, isAllUpper t = true) ∧
    (∀ k ∈ requestKeys (parseTickers s₁) years, isAllUpper k.1 = true) ∧
    (∀ e ∈ (processRun api dates (parseTickers s₁) years).errors,
      isAllUpper e.ticker = true) ∧
    (∀ r ∈ (processRun api dates (parseTickers s₁) years).results,
      isAllUpper r.ticker = true) := by
  have hp := parseTickers_case_insensitive s₁ s₂ hcase
  have hup := parseTickers_tokens_upper s₁
  have hkeys : ∀ k ∈ requestKeys (parseTickers s₁) years, isAllUpper k.1 = true :=
    fun k hk => hup k.1 (requestKeys_fst_mem _ _ k hk)
  have hfold := foldl_processStep_upper api dates hapi
    (requestKeys (parseTickers s₁) years) initialBatchState hkeys
    (by intro e he; simp [initialBatchState] at he)
    (by intro r hr; simp [initialBatchState] at hr)
  exact ⟨hp, by rw [hp], hup, hkeys, hfold.1, hfold.2⟩

/-- Oracle fixture for the C10 witness: always succeed, echoing the
formatted ticker the way the route does. -/
def upperApi : String → String → ApiOutcome := fun t _ =>
  .success ⟨formatTicker t, "", "", none, none, none, none, none⟩

theorem C10_uppercase_tickers_witness :
    parseTickers "aapl Zzzz" = parseTickers "AAPL zzzz" ∧
    parseTickers "aapl Zzzz" = ["AAPL", "ZZZZ"] :=
  ⟨(C10_uppercase_tickers "aapl Zzzz" "AAPL zzzz" upperApi defaultStartOfYearDates
      [2020] (by decide)
      (fun t d r h => by
        unfold upperApi at h
        cases h
        rfl)).1,
   by decide⟩

end MarketCapFetcher
